import Mathlib

/-!
Verification of the substack-digest pipeline (src/create_digest.py).

The Python program is shallowly embedded: the `Article` dataclass becomes a
structure, floats become exact rationals, `datetime` values become integer
timestamps (plus preformatted display strings), file and network effects become
explicit parameters and state passing.  External collaborators (HTML stripping,
comment scraping, the summarization API, date formatting) are modelled as
function parameters, exactly where the source calls out to them.
-/

/-- Embedding of the `Article` dataclass (create_digest.py, lines 46-59).
The `published` datetime is an integer timestamp; `quality_score` is an exact
rational standing for the Python float. -/
structure Article where
  title : String
  link : String
  published : Int
  author : String
  content : String
  source : String
  word_count : Nat
  comments : Nat
  quality_score : Rat
  summary : String
  is_paywalled : Bool
deriving DecidableEq

/-- One entry of the persisted ledger (`processed_articles.json`): the reduced
record appended by `run_digest` (lines 566-579). -/
structure LedgerRecord where
  title : String
  link : String
  date_processed : String
  quality_score : Rat
deriving DecidableEq

/-- The ledger state: the two lists keyed `"featured"` and `"reviewed"`. -/
structure Ledger where
  featured : List LedgerRecord
  reviewed : List LedgerRecord
deriving DecidableEq

/-- Rounding to two decimal places, modelling Python `round(x, 2)` on the exact
rational value. -/
def round2 (q : Rat) : Rat := (round (q * 100) : Rat) / 100

/-- Embedding of `calculate_quality_score` (lines 454-473): a length score of
`min(word_count / 2000, 1.0) * 50` plus a comment score of
`min(comments * 5, 50) if comments > 0 else 0`, rounded to 2 decimals. -/
def calculate_quality_score (article : Article) : Rat :=
  let length_score : Rat := min ((article.word_count : Rat) / 2000) 1 * 50
  let comment_score : Rat :=
    if 0 < article.comments then min ((article.comments : Rat) * 5) 50 else 0
  round2 (length_score + comment_score)

/-- An article carrying only a word count and a comment count, all other fields
inert; used to state the concrete score examples. -/
def plainArticle (wc comments : Nat) : Article :=
  { title := "", link := "", published := 0, author := "", content := "",
    source := "", word_count := wc, comments := comments, quality_score := 0,
    summary := "", is_paywalled := false }

/-- Comparison used by `select_top_articles`: Python
`sorted(articles, key=lambda x: x.quality_score, reverse=True)` is the stable
sort along this relation (highest score first, ties keeping input order). -/
def byScoreDesc : Article → Article → Prop :=
  fun a b => b.quality_score ≤ a.quality_score

instance : DecidableRel byScoreDesc :=
  fun a b => inferInstanceAs (Decidable (b.quality_score ≤ a.quality_score))

instance : IsTotal Article byScoreDesc :=
  ⟨fun a b => le_total b.quality_score a.quality_score⟩

instance : IsTrans Article byScoreDesc :=
  ⟨fun _ _ _ hab hbc => le_trans hbc hab⟩

/-- The score-assignment loop at the start of `select_top_articles`
(lines 477-479): every article gets `article.quality_score` set to
`calculate_quality_score(article)` (in-place mutation becomes a map). -/
def score_articles (articles : List Article) : List Article :=
  articles.map (fun a => { a with quality_score := calculate_quality_score a })

/-- Embedding of `select_top_articles` (lines 475-487): score all articles,
stable-sort descending by quality score, return
`(sorted[:count], sorted[count:])`. -/
def select_top_articles (articles : List Article) (count : Nat) :
    List Article × List Article :=
  let sorted_articles := (score_articles articles).insertionSort byScoreDesc
  (sorted_articles.take count, sorted_articles.drop count)

/-- Word counting as Python `len(s.split())`: the number of maximal
whitespace-delimited tokens.  The boolean argument records whether the scan is
currently inside a token. -/
def countWordsAux : List Char → Bool → Nat
  | [], _ => 0
  | c :: rest, inWord =>
    if c.isWhitespace then countWordsAux rest false
    else (if inWord then 0 else 1) + countWordsAux rest true

/-- Number of whitespace-delimited words of a string, i.e. `len(s.split())`. -/
def countWords (s : String) : Nat := countWordsAux s.data false

/-- Substring occurrence on character lists, modelling Python
`needle in hay`. -/
def hasSub (needle : List Char) : List Char → Bool
  | [] => needle.isEmpty
  | c :: rest => needle.isPrefixOf (c :: rest) || hasSub needle rest

/-- Python `needle in hay` for strings. -/
def containsSub (hay needle : String) : Bool := hasSub needle.data hay.data

/-- Python `str.lower()`, modelled characterwise. -/
def lowerStr (s : String) : String := String.mk (s.data.map Char.toLower)

/-- The fixed subscription-prompt phrase list of `detect_paywall`
(lines 140-151). -/
def paywall_indicators : List String :=
  ["subscribe to continue reading",
   "this post is for paid subscribers",
   "upgrade to paid",
   "become a paid subscriber",
   "this content is for subscribers only",
   "premium subscribers only",
   "subscribe now to read more",
   "paywall",
   "members only",
   "paid tier"]

/-- Embedding of `detect_paywall` (lines 129-165): flag if any indicator occurs
in the lowercased content or title, else flag content of fewer than 50 words,
else not paywalled. -/
def detect_paywall (content title : String) : Bool :=
  let content_lower := lowerStr content
  let title_lower := lowerStr title
  if paywall_indicators.any (fun ind =>
      containsSub content_lower ind || containsSub title_lower ind) then true
  else if countWords content < 50 then true
  else false

/-- The exact phrase named by the claim; second entry of
`paywall_indicators`. -/
def paidPhrase : String := "this post is for paid subscribers"

/-- The static source-name to category lookup table of `categorize_newsletter`
(lines 301-343), keys and values verbatim from the source. -/
def source_categories : List (String × String) :=
  [("4IR - Daily AI News", "AI News & Updates"),
   ("The Strategy Stack", "Strategy & Business"),
   ("The Business Engineer", "Strategy & Business"),
   ("AI Cadence", "Strategy & Business"),
   ("Inference by Sequoia Capital", "AI Research & Technical"),
   ("AI Governance, Ethics and Leadership", "AI Governance & Ethics"),
   ("Luiza\x27s Newsletter", "AI Governance & Ethics"),
   ("AI For Humanity", "AI Governance & Ethics"),
   ("AI Newsletter", "AI Research & Technical"),
   ("The Algorithmic Bridge", "AI Research & Technical"),
   ("Lenny\x27s Newsletter", "Product & Entrepreneurship"),
   ("The Founders Corner¬Æ", "Product & Entrepreneurship"),
   ("Design with AI", "Product & Entrepreneurship"),
   ("The Product Compass", "Product & Entrepreneurship"),
   ("Build to Launch", "Product & Entrepreneurship"),
   ("Product with Attitude", "Product & Entrepreneurship"),
   ("Leadership in Change", "Leadership & Career"),
   ("AI Can Do That? üîç", "Leadership & Career"),
   ("KP\x27s Column", "Leadership & Career"),
   ("The AI Creator Drop", "Development & Tools"),
   ("Sabrina Ramonov üçÑ", "Development & Tools"),
   ("Tech World With Milan Newsletter", "Development & Tools"),
   ("The Design System Guide", "Development & Tools"),
   ("AI blew my mind", "AI Research & Technical"),
   ("The AI Maker", "AI Research & Technical"),
   ("6 \x27P\x27s in AI Pods (AI6P)", "AI Analysis & Insights")]

/-- Embedding of `categorize_newsletter` (lines 297-345):
`source_categories.get(source, "Other")`. -/
def categorize_newsletter (source : String) : String :=
  match source_categories.lookup source with
  | some c => c
  | none => "Other"

/-- A feed entry as consumed by `fetch_recent_articles`: optional fields model
Python `hasattr` checks and `entry.get` defaults.  `published_parsed` is an
integer timestamp when present. -/
structure Entry where
  title : String
  link : String
  published_parsed : Option Int
  author : Option String
  content : Option String
  summary : Option String
  description : Option String
deriving DecidableEq

/-- A parsed feed: its URL, the optional feed title (`feed.feed.get('title',
feed_url)` falls back to the URL) and its entries. -/
structure Feed where
  url : String
  feedTitle : Option String
  entries : List Entry
deriving DecidableEq

/-- Embedding of `extract_content` (lines 232-244): first populated field among
content, summary, description, then markup stripping.  The BeautifulSoup
`get_text().strip()` call is the external `stripHtml` parameter. -/
def extract_content (stripHtml : String → String) (entry : Entry) : String :=
  let raw :=
    match entry.content with
    | some c => c
    | none =>
      match entry.summary with
      | some s => s
      | none =>
        match entry.description with
        | some d => d
        | none => ""
  stripHtml raw

/-- Embedding of `fetch_recent_articles` (lines 167-230).  Network I/O becomes
the given feed data; `scrape_comments` is the external `scrape` parameter;
timestamps are seconds, so the cutoff is `now - days_back * 86400`.  An entry is
dropped when its publication date is before the cutoff or when its link is
already in the ledger (featured or reviewed). -/
def fetch_recent_articles (feeds : List Feed) (processed : Ledger)
    (now days_back : Int) (stripHtml : String → String) (scrape : String → Nat) :
    List Article :=
  let cutoff : Int := now - days_back * 86400
  feeds.flatMap (fun feed =>
    let source_name := feed.feedTitle.getD feed.url
    feed.entries.filterMap (fun entry =>
      let pub_date := entry.published_parsed.getD now
      if pub_date < cutoff then none
      else if entry.link ∈ processed.featured.map (fun r => r.link)
          ++ processed.reviewed.map (fun r => r.link) then none
      else
        let content := extract_content stripHtml entry
        some { title := entry.title, link := entry.link, published := pub_date,
               author := entry.author.getD "Unknown", content := content,
               source := source_name, word_count := countWords content,
               comments := scrape entry.link, quality_score := 0, summary := "",
               is_paywalled := detect_paywall content entry.title }))

/-- A concrete ledger record, entry and feed for the C3 witness: the ledger
already holds link "L" and the feed offers an entry with that same link. -/
def wRecord : LedgerRecord :=
  { title := "t", link := "L", date_processed := "d", quality_score := 0 }

def wEntry : Entry :=
  { title := "t", link := "L", published_parsed := some 0, author := none,
    content := some "body", summary := none, description := none }

def wEntry2 : Entry :=
  { title := "t2", link := "M", published_parsed := some 0, author := none,
    content := some "body", summary := none, description := none }

def wFeed : Feed :=
  { url := "u", feedTitle := some "Feed", entries := [wEntry, wEntry2] }

/-- The single article the witness fetch returns: the entry with link "M"
(the "L" entry is deduplicated away). -/
def wFetched : Article :=
  { title := "t2", link := "M", published := 0, author := "Unknown",
    content := "body", source := "Feed", word_count := 1, comments := 0,
    quality_score := 0, summary := "", is_paywalled := true }

/-- The summarization prompt built by `summarize_article` (lines 500-510): the
f-string with title, author, source and the first 4000 characters of the
content. -/
def buildPrompt (article : Article) : String :=
  "\n            Please provide a concise 2-3 sentence summary of this AI/tech article:\n            \n            Title: "
    ++ article.title
    ++ "\n            Author: " ++ article.author
    ++ "\n            Source: " ++ article.source
    ++ "\n            \n            Content: " ++ article.content.take 4000
    ++ "...\n            \n            Focus on the key insights, developments, or arguments presented.\n            "

/-- Embedding of `summarize_article` (lines 489-522): the external API call
(network, API and response decoding included) is the `claude` parameter; any
failure is caught and replaced by the fixed placeholder. -/
def summarize_article (claude : String → Except String String)
    (article : Article) : String :=
  match claude (buildPrompt article) with
  | Except.ok text => text
  | Except.error _ => "Summary unavailable."

/-- JSON whitespace (space, tab, carriage return, newline) as skipped by
`json.load`. -/
def skipWs (l : List Char) : List Char := l.dropWhile Char.isWhitespace

/-- Expect a fixed token after optional whitespace; return the remainder. -/
def expectTok (tok : List Char) (l : List Char) : Option (List Char) :=
  let l2 := skipWs l
  if tok.isPrefixOf l2 then some (l2.drop tok.length) else none

/-- JSON string-body escaping as `json.dump` performs it on printable ASCII
text: backslash-escape the quote and the backslash, everything else verbatim. -/
def escapeChars : List Char → List Char
  | [] => []
  | c :: rest =>
    if c == '"' || c == '\\' then '\\' :: c :: escapeChars rest
    else c :: escapeChars rest

/-- A serialized JSON string: quote, escaped body, quote. -/
def dumpStr (s : String) : List Char := '"' :: (escapeChars s.data ++ ['"'])

/-- Decode one escape character of a JSON string body. -/
def parseEsc (c : Char) : Option Char :=
  if c == '"' then some '"' else if c == '\\' then some '\\' else none

/-- Parse a JSON string body up to the closing quote (the opening quote has
already been consumed), undoing `escapeChars`. -/
def parseStrAux : List Char → Option (List Char × List Char)
  | [] => none
  | c :: rest =>
    if c == '"' then some ([], rest)
    else if c == '\\' then
      match rest with
      | [] => none
      | e :: rest2 =>
        match parseEsc e with
        | some ch =>
          match parseStrAux rest2 with
          | some (s, r) => some (ch :: s, r)
          | none => none
        | none => none
    else
      match parseStrAux rest with
      | some (s, r) => some (c :: s, r)
      | none => none

/-- Parse a JSON string token (leading whitespace allowed). -/
def parseString (l : List Char) : Option (String × List Char) :=
  match skipWs l with
  | c :: rest =>
    if c == '"' then
      match parseStrAux rest with
      | some (s, r) => some (String.mk s, r)
      | none => none
    else none
  | [] => none

/-- The character for a decimal digit. -/
def digitChar (d : Nat) : Char := Char.ofNat (48 + d)

/-- The digit value of a decimal digit character. -/
def charDigit (c : Char) : Nat := c.toNat - 48

/-- The little-endian decimal digits of `n` (empty for 0); fuel-structured so
that the kernel can evaluate it. -/
def digitsLE : Nat → Nat → List Nat
  | 0, _ => []
  | fuel + 1, n => if n = 0 then [] else n % 10 :: digitsLE fuel (n / 10)

/-- Decimal rendering of a natural number. -/
def printNat (n : Nat) : List Char :=
  if n = 0 then ['0'] else ((digitsLE n n).map digitChar).reverse

/-- Value of a little-endian digit list. -/
def valLE : List Nat → Nat
  | [] => 0
  | d :: ds => d + 10 * valLE ds

/-- Value of a big-endian digit character list. -/
def valDigits (l : List Char) : Nat :=
  l.foldl (fun acc c => acc * 10 + charDigit c) 0

/-- Parse a (nonnegative) JSON number: integer digits and an optional
fractional part. -/
def parseNumber (l : List Char) : Option (Rat × List Char) :=
  let ip := l.takeWhile Char.isDigit
  let rest := l.dropWhile Char.isDigit
  if ip.isEmpty then none
  else
    match rest with
    | c :: rest2 =>
      if c == '.' then
        let fp := rest2.takeWhile Char.isDigit
        let rest3 := rest2.dropWhile Char.isDigit
        if fp.isEmpty then none
        else some ((valDigits ip : Rat) + (valDigits fp : Rat) / ((10 : Rat) ^ fp.length),
          rest3)
      else some ((valDigits ip : Rat), rest)
    | [] => some ((valDigits ip : Rat), rest)

/-- Fractional digits of a score (`fr` hundredths, `fr < 100`) as Python float
`repr` renders them: a single digit when the hundredths digit is zero, two
digits otherwise. -/
def fracPart (fr : Nat) : List Char :=
  if fr % 10 = 0 then printNat (fr / 10)
  else if fr < 10 then '0' :: printNat fr
  else printNat fr

/-- Rendering of a quality score (an exact multiple of 1/100) exactly as Python
`repr` renders the corresponding float: integer part, dot, one or two
fractional digits with no trailing zero beyond the first. -/
def printScore (q : Rat) : List Char :=
  printNat ((q * 100).num.toNat / 100) ++ '.' :: fracPart ((q * 100).num.toNat % 100)

/-- Parse a number token (leading whitespace allowed). -/
def parseScoreTok (l : List Char) : Option (Rat × List Char) :=
  parseNumber (skipWs l)

/-- Tokens and whitespace runs of the `json.dump(..., indent=2)` layout of the
ledger file. -/
def obr : List Char := ['\x7b']

def cbr : List Char := ['\x7d']

def obk : List Char := ['[']

def cbk : List Char := [']']

def cComma : List Char := [',']

def wsNl : List Char := ['\n']

def sp1 : List Char := [' ']

def ind2 : List Char := [' ', ' ']

def ind4 : List Char := [' ', ' ', ' ', ' ']

def ind6 : List Char := [' ', ' ', ' ', ' ', ' ', ' ']

def keyTitle : List Char := '"' :: ('t' :: ('i' :: ('t' :: ('l' :: ('e' :: ('"' :: (':' :: [])))))))

def keyLink : List Char := '"' :: ('l' :: ('i' :: ('n' :: ('k' :: ('"' :: (':' :: []))))))

def keyDate : List Char := "\"date_processed\":".data

def keyScore : List Char := "\"quality_score\":".data

def keyFeatured : List Char := "\"featured\":".data

def keyReviewed : List Char := "\"reviewed\":".data

/-- One ledger record serialized at list depth, byte for byte the
`json.dumps(..., indent=2)` output. -/
def dumpRecord (r : LedgerRecord) : List Char :=
  ind4 ++ obr ++ wsNl ++ ind6 ++ keyTitle ++ sp1 ++ dumpStr r.title
    ++ cComma ++ wsNl ++ ind6 ++ keyLink ++ sp1 ++ dumpStr r.link
    ++ cComma ++ wsNl ++ ind6 ++ keyDate ++ sp1 ++ dumpStr r.date_processed
    ++ cComma ++ wsNl ++ ind6 ++ keyScore ++ sp1 ++ printScore r.quality_score
    ++ wsNl ++ ind4 ++ cbr

/-- Records joined by the `",\n"` item separator. -/
def joinRecs : List LedgerRecord → List Char
  | [] => []
  | [r] => dumpRecord r
  | r :: rs => dumpRecord r ++ cComma ++ wsNl ++ joinRecs rs

/-- A serialized record list: `[]` when empty, else a bracketed block. -/
def dumpRecList (recs : List LedgerRecord) : List Char :=
  match recs with
  | [] => obk ++ cbk
  | _ :: _ => obk ++ wsNl ++ joinRecs recs ++ wsNl ++ ind2 ++ cbk

/-- The full ledger file content produced by
`json.dump(self.processed_articles, f, indent=2, default=str)`. -/
def dumpLedger (x : Ledger) : List Char :=
  obr ++ wsNl ++ ind2 ++ keyFeatured ++ sp1 ++ dumpRecList x.featured
    ++ cComma ++ wsNl ++ ind2 ++ keyReviewed ++ sp1 ++ dumpRecList x.reviewed
    ++ wsNl ++ cbr

/-- Embedding of `save_processed_articles` (lines 124-127): the string written
to the ledger file. -/
def save_processed_articles (x : Ledger) : String := String.mk (dumpLedger x)

/-- Parse one serialized record. -/
def parseRecord (l : List Char) : Option (LedgerRecord × List Char) :=
  (expectTok obr l).bind fun l1 =>
  (expectTok keyTitle l1).bind fun l2 =>
  (parseString l2).bind fun pt =>
  (expectTok cComma pt.2).bind fun l4 =>
  (expectTok keyLink l4).bind fun l5 =>
  (parseString l5).bind fun pk =>
  (expectTok cComma pk.2).bind fun l7 =>
  (expectTok keyDate l7).bind fun l8 =>
  (parseString l8).bind fun pd =>
  (expectTok cComma pd.2).bind fun l10 =>
  (expectTok keyScore l10).bind fun l11 =>
  (parseScoreTok l11).bind fun pq =>
  (expectTok cbr pq.2).bind fun l13 =>
  some ({ title := pt.1, link := pk.1, date_processed := pd.1,
          quality_score := pq.1 }, l13)

/-- Parse the items of a nonempty record list (fuel-bounded): after each
record, a comma continues the list and a closing bracket ends it. -/
def parseRecsAux : Nat → List Char → Option (List LedgerRecord × List Char)
  | 0, _ => none
  | fuel + 1, l =>
    (parseRecord l).bind fun pr =>
      if (expectTok cComma pr.2).isSome then
        (expectTok cComma pr.2).bind fun l3 =>
        (parseRecsAux fuel l3).bind fun ps => some (pr.1 :: ps.1, ps.2)
      else
        (expectTok cbk pr.2).bind fun l3 => some ([pr.1], l3)

/-- Parse a record list (empty or bracketed items). -/
def parseRecList (fuel : Nat) (l : List Char) : Option (List LedgerRecord × List Char) :=
  (expectTok obk l).bind fun l1 =>
    if (expectTok cbk l1).isSome then
      (expectTok cbk l1).bind fun l2 => some ([], l2)
    else parseRecsAux fuel l1

/-- Parse a whole ledger file, demanding only whitespace after the closing
brace, as `json.load` does. -/
def parseLedger (s : String) : Option Ledger :=
  (expectTok obr s.data).bind fun l1 =>
  (expectTok keyFeatured l1).bind fun l2 =>
  (parseRecList s.data.length l2).bind fun pf =>
  (expectTok cComma pf.2).bind fun l4 =>
  (expectTok keyReviewed l4).bind fun l5 =>
  (parseRecList s.data.length l5).bind fun pr =>
  (expectTok cbr pr.2).bind fun l7 =>
    if (skipWs l7).isEmpty then some { featured := pf.1, reviewed := pr.1 }
    else none

/-- Embedding of `load_processed_articles` (lines 117-122): parse the file if
it exists, else the two-list empty default.  A `none` result models a
`json.load` failure (which would raise in Python). -/
def load_processed_articles (file : Option String) : Option Ledger :=
  match file with
  | some s => parseLedger s
  | none => some { featured := [], reviewed := [] }

/-- Strings of printable ASCII: the domain on which `escapeChars` agrees with
the `json.dump` string encoder (which additionally escapes control and
non-ASCII characters). -/
abbrev goodString (s : String) : Prop := ∀ c ∈ s.data, 32 ≤ c.toNat ∧ c.toNat ≤ 126

/-- Scores as the program produces them: nonnegative exact multiples of
1/100. -/
abbrev goodScore (q : Rat) : Prop := 0 ≤ q ∧ (q * 100).den = 1

/-- A well-formed ledger record: printable-ASCII strings (dates already
serialized to strings) and a representable score. -/
abbrev goodRecord (r : LedgerRecord) : Prop :=
  goodString r.title ∧ goodString r.link ∧ goodString r.date_processed
    ∧ goodScore r.quality_score

/-- A well-formed ledger state. -/
abbrev goodLedger (x : Ledger) : Prop :=
  (∀ r ∈ x.featured, goodRecord r) ∧ (∀ r ∈ x.reviewed, goodRecord r)

/-- A concrete well-formed one-record ledger for the C4 witness, with an
escaped quote in the title and a two-decimal score. -/
def wGoodLedger : Ledger :=
  { featured := [{ title := "A \"quoted\" title", link := "https://example.com/a",
                   date_processed := "2025-08-01T00:00:00",
                   quality_score := (3007 : Rat) / 100 }],
    reviewed := [] }

/-- Insert an article into the group for its category, creating the group at
the end on first occurrence: Python dict insertion-order semantics of the
grouping loop (lines 405-410). -/
def addToGroups (groups : List (String × List Article)) (cat : String)
    (a : Article) : List (String × List Article) :=
  match groups with
  | [] => [(cat, [a])]
  | (c, arts) :: rest =>
    if c = cat then (c, arts ++ [a]) :: rest
    else (c, arts) :: addToGroups rest cat a

/-- The `categorized` dict of `generate_digest_html`: articles grouped by
`categorize_newsletter(article.source)` in first-appearance order. -/
def groupByCategory (articles : List Article) : List (String × List Article) :=
  articles.foldl (fun g a => addToGroups g (categorize_newsletter a.source) a) []

/-- Comparison for `sorted(categorized.items(), key=lambda x: len(x[1]),
reverse=True)`: stable descending by article count. -/
def byCountDesc : (String × List Article) → (String × List Article) → Prop :=
  fun p q => q.2.length ≤ p.2.length

instance : DecidableRel byCountDesc :=
  fun p q => inferInstanceAs (Decidable (q.2.length ≤ p.2.length))

instance : IsTotal (String × List Article) byCountDesc :=
  ⟨fun p q => le_total q.2.length p.2.length⟩

instance : IsTrans (String × List Article) byCountDesc :=
  ⟨fun _ _ _ hab hbc => le_trans hbc hab⟩

/-- The category sections of the rendered digest (lines 404-428): groups in
first-appearance order, stable-sorted descending by article count, each
section's articles stable-sorted descending by quality score. -/
def categorizedSections (other_articles : List Article) :
    List (String × List Article) :=
  ((groupByCategory other_articles).insertionSort byCountDesc).map
    (fun p => (p.1, p.2.insertionSort byScoreDesc))

/-- Insert thousands separators into a reversed digit list (least significant
digit first). -/
def commaGroups : List Char → List Char
  | a :: b :: c :: d :: rest => a :: b :: c :: ',' :: commaGroups (d :: rest)
  | l => l

/-- Python format `f"{n:,}"` for a natural number. -/
def formatComma3 (n : Nat) : String :=
  String.mk ((commaGroups (printNat n).reverse).reverse)

/-- Display of a quality score, as Python str() of the float. -/
def ratRepr (q : Rat) : String := String.mk (printScore q)

/-- One featured-article block of the digest (lines 389-400). -/
def featuredHtml (fmtDate : Int → String) (article : Article) : String :=
  let paywall_indicator :=
    if article.is_paywalled
    then "<span class=\"paywall-indicator\">üîí PAYWALLED</span>" else ""
  "\n            <div class=\"featured\">\n                <div class=\"article\">\n                    <div class=\"title\"><a href=\""
    ++ article.link ++ "\" target=\"_blank\">" ++ article.title ++ "</a> "
    ++ paywall_indicator
    ++ "</div>\n                    <div class=\"meta\">By " ++ article.author
    ++ " | " ++ article.source ++ " | " ++ fmtDate article.published
    ++ "</div>\n                    <div class=\"summary\">" ++ article.summary
    ++ "</div>\n                    <div class=\"metrics\">Quality Score: "
    ++ ratRepr article.quality_score ++ " | Words: "
    ++ formatComma3 article.word_count ++ " | üí¨ "
    ++ toString article.comments
    ++ " comments</div>\n                </div>\n            </div>\n            "

/-- One item of a category section (lines 430-437). -/
def otherArticleHtml (article : Article) : String :=
  let paywall_indicator := if article.is_paywalled then " üîí" else ""
  "\n                    <div class=\"other-article-item\">\n                        <div class=\"other-title\"><a href=\""
    ++ article.link ++ "\" target=\"_blank\">" ++ article.title ++ "</a>"
    ++ paywall_indicator
    ++ "</div>\n                        <div class=\"other-meta\">"
    ++ article.author ++ " | " ++ article.source ++ " | üí¨ "
    ++ toString article.comments
    ++ " comments</div>\n                    </div>\n                    "

/-- One category section of the digest (lines 420-439). -/
def categoryHtml (p : String × List Article) : String :=
  "\n                <div class=\"category-section\">\n                    <div class=\"category-title\">"
    ++ p.1 ++ " (" ++ toString p.2.length
    ++ " articles)</div>\n                    <div class=\"category-articles\">\n                "
    ++ String.join (p.2.map otherArticleHtml)
    ++ "</div></div>"

/-- Embedding of `generate_digest_html` (lines 347-452): the full static page.
`now_fmt` stands for `datetime.now().strftime('%B %d, %Y')` and `fmtDate` for
per-article `strftime`, both external to the pure renderer. -/
def generate_digest_html (featured_articles other_articles : List Article)
    (now_fmt : String) (fmtDate : Int → String) : String :=
  let header :=
    "\n        <!DOCTYPE html>\n        <html>\n        <head>\n            <title>AI Newsletter Digest - "
    ++ now_fmt
    ++ "</title>\n            <style>\n                body \x7b font-family: -apple-system, BlinkMacSystemFont, \x27Segoe UI\x27, Roboto, sans-serif; max-width: 900px; margin: 0 auto; padding: 20px; line-height: 1.6; color: #333; \x7d\n                .header \x7b border-bottom: 2px solid #333; margin-bottom: 30px; padding-bottom: 20px; \x7d\n                .featured \x7b background: #f8f9fa; padding: 25px; margin: 25px 0; border-radius: 10px; box-shadow: 0 2px 4px rgba(0,0,0,0.1); \x7d\n                .article \x7b margin-bottom: 25px; \x7d\n                .title \x7b font-size: 20px; font-weight: bold; margin-bottom: 12px; \x7d\n                .title a \x7b text-decoration: none; color: #333; \x7d\n                .title a:hover \x7b color: #007acc; \x7d\n                .meta \x7b color: #666; font-size: 14px; margin-bottom: 15px; \x7d\n                .summary \x7b line-height: 1.6; margin-bottom: 15px; font-size: 16px; \x7d\n                .metrics \x7b font-size: 13px; color: #888; background: #f0f0f0; padding: 10px; border-radius: 5px; \x7d\n                .paywall-indicator \x7b color: #ff6b35; font-weight: bold; font-size: 12px; \x7d\n                .other-articles \x7b margin-top: 50px; \x7d\n                .category-section \x7b margin-bottom: 35px; \x7d\n                .category-title \x7b font-size: 22px; font-weight: bold; color: #333; margin-bottom: 15px; border-bottom: 2px solid #007acc; padding-bottom: 8px; text-transform: uppercase; letter-spacing: 1px; \x7d\n                .category-articles \x7b display: grid; gap: 12px; \x7d\n                .other-article-item \x7b padding: 15px; background: #f8f9fa; border-radius: 6px; \x7d\n                .other-article-item:hover \x7b background: #f0f0f0; \x7d\n                .other-title \x7b font-weight: bold; margin-bottom: 5px; \x7d\n                .other-title a \x7b text-decoration: none; color: #333; \x7d\n                .other-title a:hover \x7b color: #007acc; \x7d\n                .other-meta \x7b font-size: 12px; color: #666; \x7d\n                .footer \x7b margin-top: 50px; padding-top: 20px; border-top: 1px solid #ddd; color: #666; font-size: 14px; text-align: center; \x7d\n            </style>\n        </head>\n        <body>\n            <div class=\"header\">\n                <h1>ü§ñ AI Newsletter Digest</h1>\n                <p><strong>"
    ++ now_fmt ++ "</strong> | " ++ toString featured_articles.length
    ++ " Featured Articles | " ++ toString other_articles.length
    ++ " Additional Articles</p>\n                <p><small>Automatically curated from leading AI newsletters based on content quality and engagement</small></p>\n            </div>\n        "
  let featuredPart :=
    "<h2>üìö Featured Articles</h2>"
    ++ String.join (featured_articles.map (featuredHtml fmtDate))
  let otherPart :=
    if other_articles.isEmpty then ""
    else
      "\n            <div class=\"other-articles\">\n                <h2>üìù Additional Articles by Category</h2>\n            "
        ++ String.join ((categorizedSections other_articles).map categoryHtml)
        ++ "</div>"
  let footer :=
    "\n        <div class=\"footer\">\n            <p>Generated automatically by AI Newsletter Digest</p>\n            <p><small>Quality scoring based on content length and community engagement</small></p>\n        </div>\n        </body>\n        </html>\n        "
  header ++ featuredPart ++ otherPart ++ footer

/-- The persisted state touched by `run_digest`: the ledger file content, the
in-memory `processed_articles`, and the digest HTML files written so far. -/
structure SystemState where
  ledger_file : Option String
  processed_articles : Ledger
  digest_files : List (String × String)
deriving DecidableEq

/-- The reduced record `run_digest` appends to the ledger (lines 565-579). -/
def mkProcessedRecord (now_iso : String) (a : Article) : LedgerRecord :=
  { title := a.title, link := a.link, date_processed := now_iso,
    quality_score := a.quality_score }

/-- The timestamped digest file name (lines 556-557). -/
def digest_filename (timestamp : String) : String :=
  "ai_digest_" ++ timestamp ++ ".html"

/-- Embedding of `run_digest` (lines 524-584) as a state transformer: fetch,
early return when nothing is new, else select, summarize the featured
articles, render and write the digest, append ledger records and save.
External effects (`datetime.now()` and its formats, HTML stripping, comment
scraping, the summarization call) are parameters. -/
def run_digest (feeds : List Feed) (stripHtml : String → String)
    (scrape : String → Nat) (claude : String → Except String String)
    (now : Int) (now_fmt now_iso timestamp : String) (fmtDate : Int → String)
    (days_back : Int) (featured_count : Nat) (st : SystemState) : SystemState :=
  let articles := fetch_recent_articles feeds st.processed_articles now days_back
    stripHtml scrape
  if articles.isEmpty then st
  else
    let p := select_top_articles articles featured_count
    let featured := p.1.map (fun a => { a with summary := summarize_article claude a })
    let others := p.2
    let html_digest := generate_digest_html featured others now_fmt fmtDate
    let processed2 : Ledger :=
      { featured := st.processed_articles.featured
          ++ featured.map (mkProcessedRecord now_iso),
        reviewed := st.processed_articles.reviewed
          ++ others.map (mkProcessedRecord now_iso) }
    { ledger_file := some (save_processed_articles processed2),
      processed_articles := processed2,
      digest_files := st.digest_files ++ [(digest_filename timestamp, html_digest)] }

/-- An initial empty state for the C6 witness. -/
def wState : SystemState :=
  { ledger_file := none, processed_articles := { featured := [], reviewed := [] },
    digest_files := [] }

lemma round2_nonneg {q : Rat} (h : 0 ≤ q) : 0 ≤ round2 q := by
  unfold round2
  have h1 : (0 : Int) ≤ round (q * 100) := by
    rw [round_eq]
    have : (0 : Rat) ≤ q * 100 + 1 / 2 := by positivity
    exact Int.le_floor.mpr (by exact_mod_cast this)
  have : (0 : Rat) ≤ (round (q * 100) : Rat) := by exact_mod_cast h1
  positivity

lemma round2_le_100 {q : Rat} (h : q ≤ 100) : round2 q ≤ 100 := by
  unfold round2
  have h1 : round (q * 100) ≤ 10000 := by
    rw [round_eq]
    have h2 : q * 100 + 1 / 2 ≤ 10000 + 1 / 2 := by linarith
    have h3 : (⌊q * 100 + 1 / 2⌋ : Rat) ≤ 10000 + 1 / 2 :=
      le_trans (Int.floor_le _) h2
    by_contra hcon
    push_neg at hcon
    have h4 : ((10001 : Int) : Rat) ≤ (⌊q * 100 + 1 / 2⌋ : Rat) := by
      exact_mod_cast hcon
    have h5 : ((10001 : Int) : Rat) ≤ 10000 + 1 / 2 := le_trans h4 h3
    norm_num at h5
  have h6 : (round (q * 100) : Rat) ≤ 10000 := by exact_mod_cast h1
  linarith

lemma round2_natCast (n : Nat) : round2 ((n : Rat)) = n := by
  unfold round2
  have h : ((n : Rat)) * 100 = (((n * 100 : Nat) : Int) : Rat) := by
    push_cast
    ring
  rw [h, round_intCast]
  push_cast
  field_simp

lemma length_score_bounds (wc : Nat) :
    0 ≤ min ((wc : Rat) / 2000) 1 * 50 ∧ min ((wc : Rat) / 2000) 1 * 50 ≤ 50 := by
  constructor
  · have h0 : (0 : Rat) ≤ (wc : Rat) / 2000 := by positivity
    have : (0 : Rat) ≤ min ((wc : Rat) / 2000) 1 := le_min h0 (by norm_num)
    linarith
  · have : min ((wc : Rat) / 2000) 1 ≤ 1 := min_le_right _ _
    linarith

lemma comment_score_eq (c : Nat) :
    (if 0 < c then min ((c : Rat) * 5) 50 else 0) = min ((c : Rat) * 5) 50 := by
  rcases Nat.eq_zero_or_pos c with h | h
  · subst h
    simp
  · simp [h]

lemma filter_orderedInsert_pos {α : Type} (r : α → α → Prop) [DecidableRel r]
    (p : α → Bool) (a : α) (hpa : p a = true) (h : ∀ b, p b = true → r a b)
    (l : List α) : (l.orderedInsert r a).filter p = a :: l.filter p := by
  induction l with
  | nil => simp [List.orderedInsert, hpa]
  | cons b l ih =>
    by_cases hr : r a b
    · simp [List.orderedInsert, hr, List.filter_cons, hpa]
    · have hpb : p b = false := by
        cases hpb : p b with
        | false => rfl
        | true => exact absurd (h b hpb) hr
      simp [List.orderedInsert, hr, List.filter_cons, hpb, hpa, ih]

lemma filter_orderedInsert_neg {α : Type} (r : α → α → Prop) [DecidableRel r]
    (p : α → Bool) (a : α) (hpa : p a = false)
    (l : List α) : (l.orderedInsert r a).filter p = l.filter p := by
  induction l with
  | nil => simp [List.orderedInsert, hpa]
  | cons b l ih =>
    by_cases hr : r a b
    · simp [List.orderedInsert, hr, List.filter_cons, hpa]
    · cases hpb : p b with
      | false => simp [List.orderedInsert, hr, List.filter_cons, hpb, hpa, ih]
      | true => simp [List.orderedInsert, hr, List.filter_cons, hpb, hpa, ih]

lemma filter_insertionSort {α : Type} (r : α → α → Prop) [DecidableRel r]
    (p : α → Bool) (h : ∀ a b, p a = true → p b = true → r a b)
    (l : List α) : (l.insertionSort r).filter p = l.filter p := by
  induction l with
  | nil => rfl
  | cons a l ih =>
    rw [List.insertionSort]
    cases hpa : p a with
    | true =>
      rw [filter_orderedInsert_pos r p a hpa (fun b hb => h a b hpa hb), ih,
        List.filter_cons_of_pos hpa]
    | false =>
      rw [filter_orderedInsert_neg r p a hpa, ih, List.filter_cons_of_neg]
      simp [hpa]

/-- C2: `select_top_articles` is a stable partition: featured ++ others is a
permutation of the scored input (each input article, with its computed score,
exactly once), that concatenation is sorted non-increasing by quality score,
featured is its first `count` elements, and articles of any fixed score keep
their original relative order (stability). -/
theorem select_top_articles_stable_partition :
    ∀ (articles : List Article) (count : Nat),
      ((select_top_articles articles count).1
          ++ (select_top_articles articles count).2).Perm (score_articles articles)
      ∧ List.Sorted byScoreDesc
          ((select_top_articles articles count).1
            ++ (select_top_articles articles count).2)
      ∧ (select_top_articles articles count).1
          = ((select_top_articles articles count).1
              ++ (select_top_articles articles count).2).take count
      ∧ ∀ s : Rat,
          (((select_top_articles articles count).1
              ++ (select_top_articles articles count).2).filter
            (fun a => decide (a.quality_score = s)))
          = ((score_articles articles).filter
              (fun a => decide (a.quality_score = s))) := by
  intro articles count
  have hsplit : (select_top_articles articles count).1
      ++ (select_top_articles articles count).2
      = (score_articles articles).insertionSort byScoreDesc := by
    simp [select_top_articles]
  refine ⟨?_, ?_, ?_, ?_⟩
  · rw [hsplit]
    exact List.perm_insertionSort byScoreDesc (score_articles articles)
  · rw [hsplit]
    exact List.sorted_insertionSort byScoreDesc (score_articles articles)
  · rw [hsplit]
    simp [select_top_articles]
  · intro s
    rw [hsplit]
    apply filter_insertionSort
    intro a b ha hb
    have ha2 : a.quality_score = s := of_decide_eq_true ha
    have hb2 : b.quality_score = s := of_decide_eq_true hb
    unfold byScoreDesc
    rw [ha2, hb2]

/-- C10: the featured list has length `min count n` and the others list has
length `n - min count n`; when `count` is at least the number of input
articles, every article is featured and the others list is empty. -/
theorem select_top_articles_lengths :
    ∀ (articles : List Article) (count : Nat),
      (select_top_articles articles count).1.length = min count articles.length
      ∧ (select_top_articles articles count).2.length
          = articles.length - min count articles.length
      ∧ (articles.length ≤ count →
          (select_top_articles articles count).2 = []
          ∧ (select_top_articles articles count).1.length = articles.length) := by
  intro articles count
  have hlen : ((score_articles articles).insertionSort byScoreDesc).length
      = articles.length := by
    rw [List.length_insertionSort]
    simp [score_articles]
  refine ⟨?_, ?_, ?_⟩
  · simp [select_top_articles, List.length_take, hlen]
  · simp [select_top_articles, List.length_drop, hlen]
    omega
  · intro h
    constructor
    · simp [select_top_articles, List.drop_eq_nil_iff, hlen]
      omega
    · simp [select_top_articles, List.length_take, hlen]
      omega

/-- Witness for C10 at a concrete input: one article, `count = 7`. -/
theorem select_top_articles_lengths_witness :
    (select_top_articles [plainArticle 100 0] 7).2 = []
    ∧ (select_top_articles [plainArticle 100 0] 7).1.length
        = (List.length [plainArticle 100 0]) :=
  (select_top_articles_lengths [plainArticle 100 0] 7).2.2 (by decide)

lemma isPrefixOf_map_toLower : ∀ (needle hay : List Char),
    (∀ c ∈ needle, c.toLower = c) → needle.isPrefixOf hay = true →
      needle.isPrefixOf (hay.map Char.toLower) = true := by
  intro needle
  induction needle with
  | nil =>
    intro hay _ _
    cases hay <;> rfl
  | cons c ns ih =>
    intro hay hfix hpre
    cases hay with
    | nil => simp [List.isPrefixOf] at hpre
    | cons b bs =>
      simp only [List.isPrefixOf, List.map, Bool.and_eq_true, beq_iff_eq] at hpre ⊢
      obtain ⟨hcb, hrest⟩ := hpre
      refine ⟨?_, ih bs (fun x hx => hfix x (List.mem_cons_of_mem _ hx)) hrest⟩
      rw [← hcb, hfix c (List.mem_cons_self c ns)]

lemma hasSub_map_toLower : ∀ (needle hay : List Char),
    (∀ c ∈ needle, c.toLower = c) → hasSub needle hay = true →
      hasSub needle (hay.map Char.toLower) = true := by
  intro needle hay
  induction hay with
  | nil =>
    intro _ h
    exact h
  | cons c rest ih =>
    intro hfix h
    simp only [hasSub, List.map, Bool.or_eq_true] at h ⊢
    cases h with
    | inl hp =>
      have := isPrefixOf_map_toLower needle (c :: rest) hfix hp
      simp only [List.map] at this
      exact Or.inl this
    | inr hs => exact Or.inr (ih hfix hs)

/-- C5: `detect_paywall` returns true whenever the content has fewer than 50
whitespace-delimited words, and whenever the content contains the exact phrase
"this post is for paid subscribers", regardless of the content length. -/
theorem detect_paywall_spec :
    ∀ (content title : String),
      (countWords content < 50 → detect_paywall content title = true)
      ∧ (containsSub content paidPhrase = true →
          detect_paywall content title = true) := by
  intro content title
  constructor
  · intro h
    cases hany : (paywall_indicators.any fun ind =>
        containsSub (lowerStr content) ind || containsSub (lowerStr title) ind) with
    | true => simp [detect_paywall, hany]
    | false => simp [detect_paywall, hany, h]
  · intro h
    have hlow : containsSub (lowerStr content) paidPhrase = true := by
      unfold containsSub at h
      show hasSub paidPhrase.data (lowerStr content).data = true
      have hd : (lowerStr content).data = content.data.map Char.toLower := rfl
      rw [hd]
      exact hasSub_map_toLower paidPhrase.data content.data (by decide) h
    have hany : (paywall_indicators.any fun ind =>
        containsSub (lowerStr content) ind || containsSub (lowerStr title) ind)
        = true := by
      rw [List.any_eq_true]
      refine ⟨paidPhrase, by decide, ?_⟩
      simp [hlow]
    simp [detect_paywall, hany]

/-- Witness for C5: a two-word content is flagged, and a content that is
exactly the paid-subscribers phrase is flagged. -/
theorem detect_paywall_spec_witness :
    detect_paywall "hi" "" = true
    ∧ detect_paywall "this post is for paid subscribers" "" = true :=
  ⟨(detect_paywall_spec "hi" "").1 (by decide),
   (detect_paywall_spec "this post is for paid subscribers" "").2 (by decide)⟩

lemma lookup_eq_none_of_not_mem_keys {β : Type} (l : List (String × β)) (k : String)
    (h : k ∉ l.map Prod.fst) : l.lookup k = none := by
  induction l with
  | nil => rfl
  | cons p l ih =>
    obtain ⟨k2, v⟩ := p
    simp only [List.map, List.mem_cons, not_or] at h
    have hne : (k == k2) = false := beq_eq_false_iff_ne.mpr h.1
    simp [List.lookup, hne, ih h.2]

/-- C8: every source name absent from the static lookup table is categorized
as "Other". -/
theorem categorize_newsletter_fallback :
    ∀ source : String, source ∉ source_categories.map Prod.fst →
      categorize_newsletter source = "Other" := by
  intro source h
  unfold categorize_newsletter
  rw [lookup_eq_none_of_not_mem_keys source_categories source h]

/-- Witness for C8 at a concrete unknown source name. -/
theorem categorize_newsletter_fallback_witness :
    categorize_newsletter "Some Unknown Newsletter" = "Other" :=
  categorize_newsletter_fallback "Some Unknown Newsletter" (by decide)

/-- C3: a link recorded in either ledger list is never re-fetched: no article
returned by `fetch_recent_articles` carries it, whatever the entry contents. -/
theorem fetch_excludes_ledger_links :
    ∀ (feeds : List Feed) (processed : Ledger) (now days_back : Int)
      (stripHtml : String → String) (scrape : String → Nat) (L : String),
      (L ∈ processed.featured.map (fun r => r.link)
        ∨ L ∈ processed.reviewed.map (fun r => r.link)) →
      ∀ a ∈ fetch_recent_articles feeds processed now days_back stripHtml scrape,
        a.link ≠ L := by
  intro feeds processed now days_back stripHtml scrape L hL a ha
  unfold fetch_recent_articles at ha
  simp only [List.mem_flatMap, List.mem_filterMap] at ha
  obtain ⟨feed, _, entry, _, heq⟩ := ha
  by_cases h1 : entry.published_parsed.getD now < now - days_back * 86400
  · simp [h1] at heq
  · by_cases h2 : entry.link ∈ processed.featured.map (fun r => r.link)
        ++ processed.reviewed.map (fun r => r.link)
    · simp [h1, h2] at heq
    · simp only [h1, h2, if_neg, if_false, Option.some.injEq, reduceIte] at heq
      subst heq
      intro hcon
      apply h2
      simp only at hcon
      rw [hcon]
      exact List.mem_append.mpr hL

/-- Witness for C3: with link "L" in the featured list, a fetch over a feed
holding entries with links "L" and "M" returns exactly the "M" article, whose
link the theorem shows differs from "L". -/
theorem fetch_excludes_ledger_links_witness : wFetched.link ≠ "L" :=
  fetch_excludes_ledger_links [wFeed] { featured := [wRecord], reviewed := [] }
    0 7 id (fun _ => 0) "L" (Or.inl (by decide)) wFetched
    (by
      rw [show fetch_recent_articles [wFeed]
          { featured := [wRecord], reviewed := [] } 0 7 id (fun _ => 0)
          = [wFetched] from by decide]
      exact List.mem_singleton.mpr rfl)

/-- C7: whenever the external summarization call fails, `summarize_article`
returns the fixed placeholder string instead of propagating the failure, so a
summarization failure never aborts the run. -/
theorem summarize_article_fail_placeholder :
    ∀ (claude : String → Except String String) (article : Article) (err : String),
      claude (buildPrompt article) = Except.error err →
      summarize_article claude article = "Summary unavailable." := by
  intro claude article err h
  unfold summarize_article
  rw [h]

/-- Witness for C7: a call that always fails yields the placeholder. -/
theorem summarize_article_fail_placeholder_witness :
    summarize_article (fun _ => Except.error "API error") (plainArticle 0 0)
      = "Summary unavailable." :=
  summarize_article_fail_placeholder (fun _ => Except.error "API error")
    (plainArticle 0 0) "API error" rfl

lemma skipWs_append_ws (w l : List Char) (hw : ∀ c ∈ w, c.isWhitespace = true) :
    skipWs (w ++ l) = skipWs l := by
  induction w with
  | nil => rfl
  | cons c w ih =>
    have hc : c.isWhitespace = true := hw c (List.mem_cons_self c w)
    simp only [List.cons_append, skipWs, List.dropWhile, hc]
    exact ih (fun x hx => hw x (List.mem_cons_of_mem c hx))

lemma skipWs_cons_notWs (c : Char) (l : List Char) (hc : c.isWhitespace = false) :
    skipWs (c :: l) = c :: l := by
  simp [skipWs, List.dropWhile, hc]

lemma isPrefixOf_append_self : ∀ (tok l : List Char), tok.isPrefixOf (tok ++ l) = true := by
  intro tok
  induction tok with
  | nil =>
    intro l
    cases l <;> rfl
  | cons c t ih =>
    intro l
    simp only [List.cons_append, List.isPrefixOf, Bool.and_eq_true, beq_self_eq_true,
      true_and]
    exact ih l

lemma expectTok_skip (tok w l : List Char) (hw : ∀ c ∈ w, c.isWhitespace = true) :
    expectTok tok (w ++ l) = expectTok tok l := by
  unfold expectTok
  rw [skipWs_append_ws w l hw]

lemma expectTok_hit (c : Char) (tok rest : List Char) (hc : c.isWhitespace = false) :
    expectTok (c :: tok) ((c :: tok) ++ rest) = some rest := by
  unfold expectTok
  simp only [List.cons_append]
  rw [show skipWs (c :: (tok ++ rest)) = c :: (tok ++ rest) from
    skipWs_cons_notWs c _ hc]
  rw [if_pos (show (c :: tok).isPrefixOf (c :: (tok ++ rest)) = true from
    isPrefixOf_append_self (c :: tok) rest)]
  simp only [List.length_cons]
  exact congrArg some (List.drop_left' (by simp))

lemma expectTok_hit2 (tok rest : List Char) (h1 : tok ≠ [])
    (h2 : tok.head?.all (fun c => !c.isWhitespace) = true) :
    expectTok tok (tok ++ rest) = some rest := by
  cases tok with
  | nil => exact absurd rfl h1
  | cons c t =>
    simp only [List.head?, Option.all_some, Bool.not_eq_true'] at h2
    exact expectTok_hit c t rest h2

lemma expectTok_hit_self (tok : List Char) (h1 : tok ≠ [])
    (h2 : tok.head?.all (fun c => !c.isWhitespace) = true) :
    expectTok tok tok = some [] := by
  have h := expectTok_hit2 tok [] h1 h2
  rwa [List.append_nil] at h

lemma expectTok_miss (c c0 : Char) (tok l : List Char) (hne : (c == c0) = false)
    (hc0 : c0.isWhitespace = false) :
    expectTok (c :: tok) (c0 :: l) = none := by
  unfold expectTok
  rw [skipWs_cons_notWs c0 l hc0]
  rw [if_neg]
  simp [List.isPrefixOf, hne]

lemma expectTok_miss2 (tok l : List Char) (c c0 : Char) (htok : tok.head? = some c)
    (hl : l.head? = some c0) (hne : (c == c0) = false) (hws : c0.isWhitespace = false) :
    expectTok tok l = none := by
  cases tok with
  | nil => simp at htok
  | cons c1 t =>
    cases l with
    | nil => simp at hl
    | cons c2 m =>
      simp only [List.head?, Option.some.injEq] at htok hl
      cases htok
      cases hl
      exact expectTok_miss c c0 t m hne hws

lemma skipWs_cons_ws (c : Char) (l : List Char) (hc : c.isWhitespace = true) :
    skipWs (c :: l) = skipWs l := by
  simp [skipWs, List.dropWhile, hc]

lemma expectTok_skip_cons (tok : List Char) (c : Char) (l : List Char)
    (hc : c.isWhitespace = true) : expectTok tok (c :: l) = expectTok tok l := by
  unfold expectTok
  rw [skipWs_cons_ws c l hc]

lemma parseStrAux_round (s rest : List Char) :
    parseStrAux (escapeChars s ++ '"' :: rest) = some (s, rest) := by
  induction s with
  | nil =>
    show parseStrAux ('"' :: rest) = some ([], rest)
    rw [parseStrAux.eq_def]
    simp
  | cons c cs ih =>
    cases h1 : (c == '"' || c == '\\') with
    | true =>
      have hesc : parseEsc c = some c := by
        have h2 : c = '"' ∨ c = '\\' := by
          have h3 := h1
          simp at h3
          exact h3
        rcases h2 with rfl | rfl <;> rfl
      simp only [escapeChars, h1, if_true, List.cons_append]
      rw [parseStrAux.eq_def]
      simp only [if_neg (by decide : ¬ (('\\' : Char) == '"') = true),
        if_pos (by decide : (('\\' : Char) == '\\') = true), hesc, ih]
    | false =>
      have hq : ¬ ((c == '"') = true) := by
        intro hq2
        simp [hq2] at h1
      have hb : ¬ ((c == '\\') = true) := by
        intro hb2
        simp [hb2] at h1
      simp only [escapeChars, h1, Bool.false_eq_true, if_false, List.cons_append]
      rw [parseStrAux.eq_def]
      simp only [if_neg hq, if_neg hb, ih]

lemma parseString_run (w : List Char) (hw : ∀ c ∈ w, c.isWhitespace = true)
    (s : String) (rest : List Char) :
    parseString (w ++ (dumpStr s ++ rest)) = some (s, rest) := by
  unfold parseString dumpStr
  rw [show ('"' :: (escapeChars s.data ++ ['"'])) ++ rest
      = '"' :: (escapeChars s.data ++ '"' :: rest) by simp]
  rw [skipWs_append_ws w _ hw,
    skipWs_cons_notWs '"' _ (by decide)]
  simp only [beq_self_eq_true, if_true, parseStrAux_round]

lemma digitsLE_zero (fuel : Nat) : digitsLE fuel 0 = [] := by
  cases fuel <;> simp [digitsLE]

lemma digitsLE_succ_of_ne (fuel n : Nat) (hn : n ≠ 0) :
    digitsLE (fuel + 1) n = n % 10 :: digitsLE fuel (n / 10) := by
  simp [digitsLE, hn]

lemma valLE_digitsLE (fuel : Nat) : ∀ n : Nat, n ≤ fuel → valLE (digitsLE fuel n) = n := by
  induction fuel with
  | zero =>
    intro n h
    have h0 : n = 0 := Nat.le_zero.mp h
    subst h0
    simp [digitsLE, valLE]
  | succ fuel ih =>
    intro n h
    by_cases hn : n = 0
    · subst hn
      simp [digitsLE, valLE]
    · have h1 : n / 10 < n := Nat.div_lt_self (Nat.pos_of_ne_zero hn) (by norm_num)
      have hdiv : n / 10 ≤ fuel := by omega
      rw [digitsLE_succ_of_ne fuel n hn]
      simp only [valLE]
      rw [ih (n / 10) hdiv]
      omega

lemma digitsLE_lt (fuel : Nat) : ∀ n d, d ∈ digitsLE fuel n → d < 10 := by
  induction fuel with
  | zero =>
    intro n d h
    simp [digitsLE] at h
  | succ fuel ih =>
    intro n d h
    by_cases hn : n = 0
    · subst hn
      simp [digitsLE] at h
    · rw [digitsLE_succ_of_ne fuel n hn] at h
      rcases List.mem_cons.mp h with rfl | h2
      · omega
      · exact ih _ _ h2

lemma digitsLE_single (fuel n : Nat) (h1 : 1 ≤ n) (h2 : n ≤ 9) (hf : 1 ≤ fuel) :
    digitsLE fuel n = [n] := by
  obtain ⟨f, rfl⟩ : ∃ f, fuel = f + 1 := ⟨fuel - 1, by omega⟩
  rw [digitsLE_succ_of_ne f n (by omega)]
  have hd : n / 10 = 0 := Nat.div_eq_of_lt (by omega)
  rw [hd, digitsLE_zero]
  congr 1
  omega

lemma charDigit_digitChar (d : Nat) (h : d < 10) : charDigit (digitChar d) = d := by
  interval_cases d <;> decide

lemma isDigit_digitChar (d : Nat) (h : d < 10) : (digitChar d).isDigit = true := by
  interval_cases d <;> decide

lemma notWs_of_isDigit (c : Char) (h : c.isDigit = true) : c.isWhitespace = false := by
  simp only [Char.isDigit, Bool.and_eq_true, decide_eq_true_eq] at h
  obtain ⟨h1, h2⟩ := h
  have hs : c ≠ ' ' := by
    rintro rfl
    revert h1
    decide
  have ht : c ≠ '\t' := by
    rintro rfl
    revert h1
    decide
  have hr : c ≠ '\r' := by
    rintro rfl
    revert h1
    decide
  have hn2 : c ≠ '\n' := by
    rintro rfl
    revert h1
    decide
  simp [Char.isWhitespace, hs, ht, hr, hn2]

lemma foldl_digits_rev (ds : List Nat) : ∀ acc : Nat, (∀ d ∈ ds, d < 10) →
    List.foldl (fun a c => a * 10 + charDigit c) acc ((ds.map digitChar).reverse)
      = acc * 10 ^ ds.length + valLE ds := by
  induction ds with
  | nil =>
    intro acc _
    simp [valLE]
  | cons d ds ih =>
    intro acc h
    simp only [List.map, List.reverse_cons]
    rw [List.foldl_append]
    rw [ih acc (fun x hx => h x (List.mem_cons_of_mem d hx))]
    simp only [List.foldl]
    rw [charDigit_digitChar d (h d (List.mem_cons_self d ds))]
    simp only [valLE, List.length_cons, pow_succ]
    ring

lemma valDigits_printNat (n : Nat) : valDigits (printNat n) = n := by
  by_cases hn : n = 0
  · subst hn
    decide
  · unfold printNat valDigits
    rw [if_neg hn]
    rw [foldl_digits_rev (digitsLE n n) 0 (digitsLE_lt n n)]
    simp [valLE_digitsLE n n le_rfl]

lemma printNat_digits (n : Nat) : ∀ c ∈ printNat n, c.isDigit = true := by
  intro c hc
  by_cases hn : n = 0
  · subst hn
    simp [printNat] at hc
    subst hc
    decide
  · unfold printNat at hc
    rw [if_neg hn] at hc
    rw [List.mem_reverse] at hc
    obtain ⟨d, hd, rfl⟩ := List.mem_map.mp hc
    exact isDigit_digitChar d (digitsLE_lt n n d hd)

lemma printNat_ne_nil (n : Nat) : printNat n ≠ [] := by
  by_cases hn : n = 0
  · subst hn
    decide
  · unfold printNat
    rw [if_neg hn]
    intro habs
    rw [List.reverse_eq_nil_iff, List.map_eq_nil_iff] at habs
    cases n with
    | zero => exact hn rfl
    | succ m => simp [digitsLE] at habs

lemma length_printNat_one (n : Nat) (h : n < 10) : (printNat n).length = 1 := by
  interval_cases n <;> decide

lemma length_printNat_two (n : Nat) (h1 : 10 ≤ n) (h2 : n < 100) :
    (printNat n).length = 2 := by
  unfold printNat
  rw [if_neg (by omega)]
  simp only [List.length_reverse, List.length_map]
  obtain ⟨m, rfl⟩ : ∃ m, n = m + 1 := ⟨n - 1, by omega⟩
  rw [digitsLE_succ_of_ne m (m + 1) (by omega)]
  simp only [List.length_cons]
  rw [digitsLE_single m ((m + 1) / 10) (by omega) (by omega) (by omega)]
  simp

lemma takeWhile_append_digits (p : Char → Bool) : ∀ (l1 : List Char),
    (∀ c ∈ l1, p c = true) →
    ∀ (c0 : Char) (l2 : List Char), p c0 = false →
      (l1 ++ c0 :: l2).takeWhile p = l1
      ∧ (l1 ++ c0 :: l2).dropWhile p = c0 :: l2 := by
  intro l1
  induction l1 with
  | nil =>
    intro _ c0 l2 h0
    constructor <;> simp [List.takeWhile, List.dropWhile, h0]
  | cons c l ih =>
    intro h c0 l2 h0
    have hc := h c (List.mem_cons_self c l)
    have ihr := ih (fun x hx => h x (List.mem_cons_of_mem _ hx)) c0 l2 h0
    constructor <;>
      simp [List.takeWhile_cons, List.dropWhile_cons, hc, ihr.1, ihr.2]

lemma parseNumber_run (A B : List Char) (hA : ∀ c ∈ A, c.isDigit = true)
    (hAne : A ≠ []) (hB : ∀ c ∈ B, c.isDigit = true) (hBne : B ≠ [])
    (c0 : Char) (h0 : c0.isDigit = false) (l2 : List Char) :
    parseNumber (A ++ '.' :: (B ++ c0 :: l2))
      = some ((valDigits A : Rat) + (valDigits B : Rat) / (10 : Rat) ^ B.length,
          c0 :: l2) := by
  unfold parseNumber
  have hdot : ('.' : Char).isDigit = false := by decide
  have h1 := takeWhile_append_digits Char.isDigit A hA '.' (B ++ c0 :: l2) hdot
  rw [h1.1, h1.2]
  rw [if_neg (by simp [List.isEmpty_iff, hAne])]
  have h2 := takeWhile_append_digits Char.isDigit B hB c0 l2 (by simp [h0])
  simp only [beq_self_eq_true, if_true, h2.1, h2.2]
  rw [if_neg (by simp [List.isEmpty_iff, hBne])]

lemma fracPart_digits (fr : Nat) : ∀ c ∈ fracPart fr, c.isDigit = true := by
  intro c hc
  unfold fracPart at hc
  split at hc
  · exact printNat_digits _ c hc
  · split at hc
    · rcases List.mem_cons.mp hc with rfl | hc2
      · decide
      · exact printNat_digits _ c hc2
    · exact printNat_digits _ c hc

lemma fracPart_ne_nil (fr : Nat) : fracPart fr ≠ [] := by
  unfold fracPart
  split
  · exact printNat_ne_nil _
  · split
    · simp
    · exact printNat_ne_nil _

lemma fracPart_val (fr : Nat) (h : fr < 100) :
    (valDigits (fracPart fr) : Rat) / (10 : Rat) ^ (fracPart fr).length
      = (fr : Rat) / 100 := by
  unfold fracPart
  by_cases h1 : fr % 10 = 0
  · rw [if_pos h1, valDigits_printNat, length_printNat_one (fr / 10) (by omega),
      pow_one]
    have h2 : (fr : Rat) = 10 * ((fr / 10 : Nat) : Rat) := by
      have h3 : fr = 10 * (fr / 10) := by omega
      exact_mod_cast congrArg (Nat.cast : Nat → Rat) h3
    rw [h2]
    ring
  · rw [if_neg h1]
    by_cases h2 : fr < 10
    · rw [if_pos h2]
      have hz : charDigit '0' = (0 : Nat) := by decide
      have hv : valDigits ('0' :: printNat fr) = valDigits (printNat fr) := by
        unfold valDigits
        simp [List.foldl_cons, hz]
      rw [hv, valDigits_printNat]
      simp only [List.length_cons, length_printNat_one fr h2]
      norm_num
    · rw [if_neg h2, valDigits_printNat, length_printNat_two fr (by omega) h]
      norm_num

lemma num_toNat_mul100 (q : Rat) (hq : 0 ≤ q) (hden : (q * 100).den = 1) :
    (((q * 100).num.toNat : Nat) : Rat) = q * 100 := by
  have h1 : ((q * 100).num : Rat) = q * 100 := by
    rw [← Rat.num_div_den (q * 100), hden]
    simp
  have h2 : 0 ≤ (q * 100).num := Rat.num_nonneg.mpr (by positivity)
  rw [show (((q * 100).num.toNat : Nat) : Rat)
      = ((((q * 100).num.toNat : Nat) : Int) : Rat) by push_cast; ring]
  rw [Int.toNat_of_nonneg h2, h1]

lemma parseNumber_printScore (q : Rat) (hgood : goodScore q) (c0 : Char)
    (h0 : c0.isDigit = false) (l2 : List Char) :
    parseNumber (printScore q ++ c0 :: l2) = some (q, c0 :: l2) := by
  obtain ⟨hq0, hden⟩ := hgood
  unfold printScore
  rw [show (printNat ((q * 100).num.toNat / 100)
        ++ '.' :: fracPart ((q * 100).num.toNat % 100)) ++ c0 :: l2
      = printNat ((q * 100).num.toNat / 100)
        ++ '.' :: (fracPart ((q * 100).num.toNat % 100) ++ c0 :: l2) by simp]
  rw [parseNumber_run (printNat ((q * 100).num.toNat / 100))
    (fracPart ((q * 100).num.toNat % 100))
    (printNat_digits _) (printNat_ne_nil _) (fracPart_digits _) (fracPart_ne_nil _)
    c0 h0 l2]
  have hq100 : (((q * 100).num.toNat : Nat) : Rat) = q * 100 :=
    num_toNat_mul100 q hq0 hden
  have hval : (valDigits (printNat ((q * 100).num.toNat / 100)) : Rat)
      + (valDigits (fracPart ((q * 100).num.toNat % 100)) : Rat)
        / (10 : Rat) ^ (fracPart ((q * 100).num.toNat % 100)).length = q := by
    rw [valDigits_printNat,
      fracPart_val ((q * 100).num.toNat % 100) (Nat.mod_lt _ (by norm_num))]
    have hsplit : (q * 100).num.toNat
        = 100 * ((q * 100).num.toNat / 100) + (q * 100).num.toNat % 100 :=
      (Nat.div_add_mod _ 100).symm
    have hcast : (((q * 100).num.toNat : Nat) : Rat)
        = 100 * (((q * 100).num.toNat / 100 : Nat) : Rat)
          + (((q * 100).num.toNat % 100 : Nat) : Rat) := by
      exact_mod_cast congrArg (Nat.cast : Nat → Rat) hsplit
    have hq2 : 100 * (((q * 100).num.toNat / 100 : Nat) : Rat)
        + (((q * 100).num.toNat % 100 : Nat) : Rat) = q * 100 := by
      rw [← hcast, hq100]
    field_simp
    linarith
  rw [hval]

lemma skipWs_printScore (q : Rat) (X : List Char) :
    skipWs (printScore q ++ X) = printScore q ++ X := by
  cases hp : printNat ((q * 100).num.toNat / 100) with
  | nil => exact absurd hp (printNat_ne_nil _)
  | cons c t =>
    have hcd : c.isDigit = true :=
      printNat_digits _ c (by rw [hp]; exact List.mem_cons_self c t)
    unfold printScore
    rw [hp]
    simp only [List.cons_append]
    exact skipWs_cons_notWs c _ (notWs_of_isDigit c hcd)

lemma parseScoreTok_run (w : List Char) (hw : ∀ c ∈ w, c.isWhitespace = true)
    (q : Rat) (hq : goodScore q) (c0 : Char) (h0 : c0.isDigit = false)
    (l2 : List Char) :
    parseScoreTok (w ++ (printScore q ++ c0 :: l2)) = some (q, c0 :: l2) := by
  unfold parseScoreTok
  rw [skipWs_append_ws w _ hw, skipWs_printScore q _,
    parseNumber_printScore q hq c0 h0 l2]

lemma parseRecord_run (w : List Char) (hw : ∀ c ∈ w, c.isWhitespace = true)
    (r : LedgerRecord) (hr : goodRecord r) (rest : List Char) :
    parseRecord (w ++ (dumpRecord r ++ rest)) = some (r, rest) := by
  obtain ⟨ht, hl, hd, hsc⟩ := hr
  unfold parseRecord dumpRecord
  simp only [List.append_assoc]
  rw [expectTok_skip obr w _ hw, expectTok_skip obr ind4 _ (by decide),
    expectTok_hit2 obr _ (by decide) (by decide)]
  simp only [Option.some_bind]
  rw [expectTok_skip keyTitle wsNl _ (by decide),
    expectTok_skip keyTitle ind6 _ (by decide),
    expectTok_hit2 keyTitle _ (by decide) (by decide)]
  simp only [Option.some_bind]
  rw [parseString_run sp1 (by decide) r.title _]
  simp only [Option.some_bind]
  rw [expectTok_hit2 cComma _ (by decide) (by decide)]
  simp only [Option.some_bind]
  rw [expectTok_skip keyLink wsNl _ (by decide),
    expectTok_skip keyLink ind6 _ (by decide),
    expectTok_hit2 keyLink _ (by decide) (by decide)]
  simp only [Option.some_bind]
  rw [parseString_run sp1 (by decide) r.link _]
  simp only [Option.some_bind]
  rw [expectTok_hit2 cComma _ (by decide) (by decide)]
  simp only [Option.some_bind]
  rw [expectTok_skip keyDate wsNl _ (by decide),
    expectTok_skip keyDate ind6 _ (by decide),
    expectTok_hit2 keyDate _ (by decide) (by decide)]
  simp only [Option.some_bind]
  rw [parseString_run sp1 (by decide) r.date_processed _]
  simp only [Option.some_bind]
  rw [expectTok_hit2 cComma _ (by decide) (by decide)]
  simp only [Option.some_bind]
  rw [expectTok_skip keyScore wsNl _ (by decide),
    expectTok_skip keyScore ind6 _ (by decide),
    expectTok_hit2 keyScore _ (by decide) (by decide)]
  simp only [Option.some_bind]
  rw [show wsNl ++ (ind4 ++ (cbr ++ rest)) = '\n' :: (ind4 ++ (cbr ++ rest))
    from rfl]
  rw [parseScoreTok_run sp1 (by decide) r.quality_score hsc '\n' (by decide) _]
  simp only [Option.some_bind]
  rw [expectTok_skip_cons cbr '\n' _ (by decide),
    expectTok_skip cbr ind4 _ (by decide),
    expectTok_hit2 cbr _ (by decide) (by decide)]
  simp only [Option.some_bind]

lemma parseRecsAux_run : ∀ (recs : List LedgerRecord) (fuel : Nat)
    (w rest : List Char), (∀ c ∈ w, c.isWhitespace = true) →
    (∀ r ∈ recs, goodRecord r) → recs ≠ [] → recs.length ≤ fuel →
    parseRecsAux fuel (w ++ (joinRecs recs ++ (wsNl ++ (ind2 ++ (cbk ++ rest)))))
      = some (recs, rest) := by
  intro recs
  induction recs with
  | nil =>
    intro fuel w rest _ _ hne _
    exact absurd rfl hne
  | cons r rs ih =>
    intro fuel w rest hw hgood hne hfuel
    obtain ⟨f, rfl⟩ : ∃ f, fuel = f + 1 :=
      ⟨fuel - 1, by simp at hfuel; omega⟩
    cases rs with
    | nil =>
      show parseRecsAux (f + 1)
          (w ++ (dumpRecord r ++ (wsNl ++ (ind2 ++ (cbk ++ rest)))))
        = some ([r], rest)
      simp only [parseRecsAux]
      rw [parseRecord_run w hw r (hgood r (List.mem_cons_self r [])) _]
      simp only [Option.some_bind]
      rw [expectTok_skip cComma wsNl _ (by decide),
        expectTok_skip cComma ind2 _ (by decide),
        expectTok_miss2 cComma (cbk ++ rest) ',' ']' (by decide) rfl
          (by decide) (by decide)]
      simp only [Option.isSome_none, Bool.false_eq_true, if_false]
      rw [expectTok_skip cbk wsNl _ (by decide),
        expectTok_skip cbk ind2 _ (by decide),
        expectTok_hit2 cbk _ (by decide) (by decide)]
      simp only [Option.some_bind]
    | cons r2 rs2 =>
      show parseRecsAux (f + 1)
          (w ++ ((dumpRecord r ++ cComma ++ wsNl ++ joinRecs (r2 :: rs2))
            ++ (wsNl ++ (ind2 ++ (cbk ++ rest)))))
        = some (r :: r2 :: rs2, rest)
      simp only [parseRecsAux, List.append_assoc]
      rw [parseRecord_run w hw r (hgood r (List.mem_cons_self r (r2 :: rs2))) _]
      simp only [Option.some_bind]
      rw [expectTok_hit2 cComma _ (by decide) (by decide)]
      simp only [Option.isSome_some, if_true, Option.some_bind]
      rw [ih f wsNl rest (by decide)
        (fun x hx => hgood x (List.mem_cons_of_mem r hx))
        (by simp)
        (by simp at hfuel ⊢; omega)]
      simp only [Option.some_bind]

lemma parseRecList_run (recs : List LedgerRecord) (fuel : Nat)
    (w rest : List Char) (hw : ∀ c ∈ w, c.isWhitespace = true)
    (hgood : ∀ r ∈ recs, goodRecord r) (hfuel : recs.length ≤ fuel) :
    parseRecList fuel (w ++ (dumpRecList recs ++ rest)) = some (recs, rest) := by
  cases recs with
  | nil =>
    show parseRecList fuel (w ++ ((obk ++ cbk) ++ rest)) = some ([], rest)
    unfold parseRecList
    simp only [List.append_assoc]
    rw [expectTok_skip obk w _ hw, expectTok_hit2 obk _ (by decide) (by decide)]
    simp only [Option.some_bind]
    rw [expectTok_hit2 cbk _ (by decide) (by decide)]
    simp only [Option.isSome_some, if_true, Option.some_bind]
  | cons r rs =>
    show parseRecList fuel
        (w ++ ((obk ++ wsNl ++ joinRecs (r :: rs) ++ wsNl ++ ind2 ++ cbk) ++ rest))
      = some (r :: rs, rest)
    unfold parseRecList
    simp only [List.append_assoc]
    rw [expectTok_skip obk w _ hw, expectTok_hit2 obk _ (by decide) (by decide)]
    simp only [Option.some_bind]
    have hmiss : expectTok cbk
        (wsNl ++ (joinRecs (r :: rs) ++ (wsNl ++ (ind2 ++ (cbk ++ rest)))))
        = none := by
      cases rs with
      | nil =>
        show expectTok cbk
            (wsNl ++ (dumpRecord r ++ (wsNl ++ (ind2 ++ (cbk ++ rest))))) = none
        unfold dumpRecord
        simp only [List.append_assoc]
        rw [expectTok_skip cbk wsNl _ (by decide),
          expectTok_skip cbk ind4 _ (by decide)]
        exact expectTok_miss2 cbk (obr ++ _) ']' '\x7b' (by decide) rfl
          (by decide) (by decide)
      | cons r2 rs2 =>
        show expectTok cbk
            (wsNl ++ ((dumpRecord r ++ cComma ++ wsNl ++ joinRecs (r2 :: rs2))
              ++ (wsNl ++ (ind2 ++ (cbk ++ rest))))) = none
        unfold dumpRecord
        simp only [List.append_assoc]
        rw [expectTok_skip cbk wsNl _ (by decide),
          expectTok_skip cbk ind4 _ (by decide)]
        exact expectTok_miss2 cbk (obr ++ _) ']' '\x7b' (by decide) rfl
          (by decide) (by decide)
    rw [hmiss]
    simp only [Option.isSome_none, Bool.false_eq_true, if_false]
    exact parseRecsAux_run (r :: rs) fuel wsNl rest (by decide) hgood
      (by simp) hfuel

lemma dumpRecord_length_pos (r : LedgerRecord) : 1 ≤ (dumpRecord r).length := by
  unfold dumpRecord
  simp only [List.length_append]
  have h : cbr.length = 1 := rfl
  omega

lemma joinRecs_length (recs : List LedgerRecord) :
    recs.length ≤ (joinRecs recs).length := by
  induction recs with
  | nil => simp [joinRecs]
  | cons r rs ih =>
    cases rs with
    | nil =>
      show (1 : Nat) ≤ (joinRecs [r]).length
      show (1 : Nat) ≤ (dumpRecord r).length
      exact dumpRecord_length_pos r
    | cons r2 rs2 =>
      show (r :: r2 :: rs2).length
        ≤ (dumpRecord r ++ cComma ++ wsNl ++ joinRecs (r2 :: rs2)).length
      simp only [List.length_cons, List.length_append]
      have h1 := dumpRecord_length_pos r
      simp only [List.length_cons] at ih
      omega

lemma dumpRecList_length (recs : List LedgerRecord) :
    recs.length ≤ (dumpRecList recs).length := by
  cases recs with
  | nil => simp [dumpRecList]
  | cons r rs =>
    show _ ≤ (obk ++ wsNl ++ joinRecs (r :: rs) ++ wsNl ++ ind2 ++ cbk).length
    simp only [List.length_append]
    have h := joinRecs_length (r :: rs)
    omega

lemma dumpLedger_length (x : Ledger) :
    x.featured.length ≤ (dumpLedger x).length
    ∧ x.reviewed.length ≤ (dumpLedger x).length := by
  unfold dumpLedger
  simp only [List.length_append]
  have h1 := dumpRecList_length x.featured
  have h2 := dumpRecList_length x.reviewed
  omega

/-- C4: saving a well-formed ledger state and loading it back reconstructs
exactly that state, and loading with no file present yields the empty default
ledger.  Well-formed means: record fields are printable-ASCII strings (dates
already serialized to strings, as `run_digest` stores them) and scores are
nonnegative exact hundredths, the value domain `json.dump`/`json.load`
round-trip on. -/
theorem ledger_round_trip :
    ∀ x : Ledger, goodLedger x →
      load_processed_articles (some (save_processed_articles x)) = some x
      ∧ load_processed_articles none
          = some { featured := [], reviewed := [] } := by
  intro x hx
  obtain ⟨hf, hr⟩ := hx
  refine ⟨?_, rfl⟩
  show parseLedger (save_processed_articles x) = some x
  have hb := dumpLedger_length x
  unfold save_processed_articles parseLedger
  set fuel := (String.mk (dumpLedger x)).data.length with hfdef
  have hbf : x.featured.length ≤ fuel := hb.1
  have hbr : x.reviewed.length ≤ fuel := hb.2
  rw [show (String.mk (dumpLedger x)).data = dumpLedger x from rfl]
  unfold dumpLedger
  simp only [List.append_assoc]
  rw [expectTok_hit2 obr _ (by decide) (by decide)]
  simp only [Option.some_bind]
  rw [expectTok_skip keyFeatured wsNl _ (by decide),
    expectTok_skip keyFeatured ind2 _ (by decide),
    expectTok_hit2 keyFeatured _ (by decide) (by decide)]
  simp only [Option.some_bind]
  rw [parseRecList_run x.featured fuel sp1 _ (by decide) hf hbf]
  simp only [Option.some_bind]
  rw [expectTok_hit2 cComma _ (by decide) (by decide)]
  simp only [Option.some_bind]
  rw [expectTok_skip keyReviewed wsNl _ (by decide),
    expectTok_skip keyReviewed ind2 _ (by decide),
    expectTok_hit2 keyReviewed _ (by decide) (by decide)]
  simp only [Option.some_bind]
  rw [parseRecList_run x.reviewed fuel sp1 _ (by decide) hr hbr]
  simp only [Option.some_bind]
  rw [expectTok_skip cbr wsNl cbr (by decide),
    expectTok_hit_self cbr (by decide) (by decide)]
  simp only [Option.some_bind]
  rfl

/-- Witness for C4 at the concrete ledger `wGoodLedger`. -/
theorem ledger_round_trip_witness :
    load_processed_articles (some (save_processed_articles wGoodLedger))
        = some wGoodLedger
    ∧ load_processed_articles none = some { featured := [], reviewed := [] } :=
  ledger_round_trip wGoodLedger (by
    constructor
    · intro r hrm
      simp only [wGoodLedger, List.mem_singleton] at hrm
      subst hrm
      refine ⟨by decide, by decide, by decide, by norm_num, ?_⟩
      show ((3007 : Rat) / 100 * 100).den = 1
      have h : (3007 : Rat) / 100 * 100 = 3007 := by norm_num
      rw [h]
      norm_num
    · intro r hrm
      simp [wGoodLedger] at hrm)

lemma addToGroups_cat : ∀ (g : List (String × List Article)) (cat : String)
    (a : Article),
    (∀ p ∈ g, ∀ x ∈ p.2, categorize_newsletter x.source = p.1) →
    categorize_newsletter a.source = cat →
    ∀ p ∈ addToGroups g cat a, ∀ x ∈ p.2, categorize_newsletter x.source = p.1 := by
  intro g
  induction g with
  | nil =>
    intro cat a _ ha p hp x hx
    simp only [addToGroups, List.mem_singleton] at hp
    subst hp
    simp only [List.mem_singleton] at hx
    subst hx
    exact ha
  | cons q rest ih =>
    intro cat a hg ha p hp x hx
    obtain ⟨c, arts⟩ := q
    by_cases hc : c = cat
    · rw [show addToGroups ((c, arts) :: rest) cat a = (c, arts ++ [a]) :: rest
        from by simp [addToGroups, hc]] at hp
      rcases List.mem_cons.mp hp with rfl | hp2
      · rcases List.mem_append.mp hx with hx1 | hx2
        · exact hg (c, arts) (List.mem_cons_self _ _) x hx1
        · simp only [List.mem_singleton] at hx2
          subst hx2
          show categorize_newsletter x.source = c
          rw [ha, hc]
      · exact hg p (List.mem_cons_of_mem _ hp2) x hx
    · rw [show addToGroups ((c, arts) :: rest) cat a
          = (c, arts) :: addToGroups rest cat a
        from by simp [addToGroups, hc]] at hp
      rcases List.mem_cons.mp hp with rfl | hp2
      · exact hg (c, arts) (List.mem_cons_self _ _) x hx
      · exact ih cat a (fun r hr => hg r (List.mem_cons_of_mem _ hr)) ha p hp2 x hx

lemma flatMap_addToGroups (g : List (String × List Article)) (cat : String)
    (a : Article) :
    ((addToGroups g cat a).flatMap Prod.snd).Perm (a :: g.flatMap Prod.snd) := by
  induction g with
  | nil => simp [addToGroups]
  | cons q rest ih =>
    obtain ⟨c, arts⟩ := q
    by_cases hc : c = cat
    · rw [show addToGroups ((c, arts) :: rest) cat a = (c, arts ++ [a]) :: rest
        from by simp [addToGroups, hc]]
      simp only [List.flatMap_cons]
      have he : (arts ++ [a]) ++ rest.flatMap Prod.snd
          = arts ++ (a :: rest.flatMap Prod.snd) := by simp
      rw [he]
      exact List.perm_middle
    · rw [show addToGroups ((c, arts) :: rest) cat a
          = (c, arts) :: addToGroups rest cat a
        from by simp [addToGroups, hc]]
      simp only [List.flatMap_cons]
      exact (ih.append_left arts).trans List.perm_middle

lemma flatMap_groupFold : ∀ (l : List Article) (g : List (String × List Article)),
    ((l.foldl (fun g a => addToGroups g (categorize_newsletter a.source) a)
        g).flatMap Prod.snd).Perm (g.flatMap Prod.snd ++ l) := by
  intro l
  induction l with
  | nil =>
    intro g
    simp
  | cons a l ih =>
    intro g
    simp only [List.foldl_cons]
    refine ((ih _).trans ?_)
    exact (List.Perm.append_right l
      (flatMap_addToGroups g (categorize_newsletter a.source) a)).trans
      List.perm_middle.symm

lemma keys_addToGroups (g : List (String × List Article)) (cat : String)
    (a : Article) :
    (addToGroups g cat a).map Prod.fst
      = if cat ∈ g.map Prod.fst then g.map Prod.fst
        else g.map Prod.fst ++ [cat] := by
  induction g with
  | nil => simp [addToGroups]
  | cons q rest ih =>
    obtain ⟨c, arts⟩ := q
    by_cases hc : c = cat
    · subst hc
      rw [show addToGroups ((c, arts) :: rest) c a = (c, arts ++ [a]) :: rest
        from by simp [addToGroups]]
      simp [List.map_cons]
    · rw [show addToGroups ((c, arts) :: rest) cat a
          = (c, arts) :: addToGroups rest cat a
        from by simp [addToGroups, hc]]
      by_cases hm : cat ∈ rest.map Prod.fst
      · simp only [List.map_cons, ih, if_pos hm]
        rw [if_pos (List.mem_cons_of_mem _ hm)]
      · simp only [List.map_cons, ih, if_neg hm]
        rw [if_neg (by
          intro hh
          rcases List.mem_cons.mp hh with h1 | h2
          · exact hc h1.symm
          · exact hm h2)]
        rfl

lemma nodup_keys_groupFold : ∀ (l : List Article) (g : List (String × List Article)),
    (g.map Prod.fst).Nodup →
    ((l.foldl (fun g a => addToGroups g (categorize_newsletter a.source) a)
        g).map Prod.fst).Nodup := by
  intro l
  induction l with
  | nil =>
    intro g h
    exact h
  | cons a l ih =>
    intro g h
    simp only [List.foldl_cons]
    apply ih
    rw [keys_addToGroups]
    split
    · exact h
    · rename_i hnm
      have hperm : (g.map Prod.fst ++ [categorize_newsletter a.source]).Perm
          (categorize_newsletter a.source :: g.map Prod.fst) :=
        List.perm_append_singleton _ _
      rw [hperm.nodup_iff]
      exact List.nodup_cons.mpr ⟨hnm, h⟩

lemma cat_groupFold : ∀ (l : List Article) (g : List (String × List Article)),
    (∀ p ∈ g, ∀ x ∈ p.2, categorize_newsletter x.source = p.1) →
    ∀ p ∈ l.foldl (fun g a => addToGroups g (categorize_newsletter a.source) a) g,
      ∀ x ∈ p.2, categorize_newsletter x.source = p.1 := by
  intro l
  induction l with
  | nil =>
    intro g h
    exact h
  | cons a l ih =>
    intro g h
    simp only [List.foldl_cons]
    exact ih _ (addToGroups_cat g _ a h rfl)

lemma flatMap_map_general {α β γ : Type} (f : α → β) (g : β → List γ)
    (l : List α) : (l.map f).flatMap g = l.flatMap (fun x => g (f x)) := by
  induction l with
  | nil => rfl
  | cons x l ih => simp [List.flatMap_cons, ih]

/-- C9: the rendered digest's category sections, as computed by
`generate_digest_html`, group the other articles by the static
source-to-category lookup (unmatched sources under "Other", via
`categorize_newsletter`), each article lands in exactly one section (the
flattened sections are a permutation of the input and section names are
distinct), sections are ordered by descending article count, and articles
within each section are ordered by descending quality score. -/
theorem digest_sections_spec :
    ∀ other_articles : List Article,
      (∀ p ∈ categorizedSections other_articles, ∀ a ∈ p.2,
          categorize_newsletter a.source = p.1)
      ∧ ((categorizedSections other_articles).flatMap Prod.snd).Perm other_articles
      ∧ ((categorizedSections other_articles).map Prod.fst).Nodup
      ∧ List.Sorted byCountDesc (categorizedSections other_articles)
      ∧ ∀ p ∈ categorizedSections other_articles, List.Sorted byScoreDesc p.2 := by
  intro others
  have hperm1 : ((groupByCategory others).insertionSort byCountDesc).Perm
      (groupByCategory others) := List.perm_insertionSort _ _
  refine ⟨?_, ?_, ?_, ?_, ?_⟩
  · intro p hp a ha
    unfold categorizedSections at hp
    obtain ⟨q, hq, rfl⟩ := List.mem_map.mp hp
    have hq0 : q ∈ groupByCategory others := hperm1.mem_iff.mp hq
    have hinv := cat_groupFold others [] (by simp) q hq0
    exact hinv a ((List.mem_insertionSort byScoreDesc).mp ha)
  · unfold categorizedSections
    rw [flatMap_map_general]
    refine (List.Perm.flatMap_left _
      (fun p _ => List.perm_insertionSort byScoreDesc p.2)).trans ?_
    refine (hperm1.flatMap_right Prod.snd).trans ?_
    have h := flatMap_groupFold others []
    simpa using h
  · unfold categorizedSections
    rw [List.map_map]
    have hcomp : Prod.fst ∘ (fun p : String × List Article =>
        (p.1, p.2.insertionSort byScoreDesc)) = Prod.fst := by
      funext p
      rfl
    rw [hcomp]
    rw [(hperm1.map Prod.fst).nodup_iff]
    exact nodup_keys_groupFold others [] (by simp)
  · unfold categorizedSections
    have hs := List.sorted_insertionSort byCountDesc (groupByCategory others)
    refine List.Pairwise.map _ ?_ hs
    intro p q hpq
    unfold byCountDesc at hpq ⊢
    simpa [List.length_insertionSort] using hpq
  · intro p hp
    unfold categorizedSections at hp
    obtain ⟨q, hq, rfl⟩ := List.mem_map.mp hp
    exact List.sorted_insertionSort byScoreDesc q.2

/-- C6: when the fetch step yields no new articles, `run_digest` ends early:
the whole system state (ledger file, in-memory processed articles, digest
files) is unchanged. -/
theorem run_digest_no_articles_frame :
    ∀ (feeds : List Feed) (stripHtml : String → String) (scrape : String → Nat)
      (claude : String → Except String String) (now : Int)
      (now_fmt now_iso timestamp : String) (fmtDate : Int → String)
      (days_back : Int) (featured_count : Nat) (st : SystemState),
      fetch_recent_articles feeds st.processed_articles now days_back
        stripHtml scrape = [] →
      run_digest feeds stripHtml scrape claude now now_fmt now_iso timestamp
        fmtDate days_back featured_count st = st := by
  intro feeds stripHtml scrape claude now now_fmt now_iso timestamp fmtDate
    days_back featured_count st h
  unfold run_digest
  rw [h]
  rfl

/-- Witness for C6: a run over no feeds leaves the state untouched. -/
theorem run_digest_no_articles_frame_witness :
    run_digest [] id (fun _ => 0) (fun _ => Except.error "e") 0 "" "" ""
      (fun _ => "") 7 7 wState = wState :=
  run_digest_no_articles_frame [] id (fun _ => 0) (fun _ => Except.error "e")
    0 "" "" "" (fun _ => "") 7 7 wState rfl

/-- C1: `calculate_quality_score` is the deterministic pure function
`round(min(word_count / 2000, 1.0) * 50 + min(comments * 5, 50), 2)`; it is
bounded between 0 and 100 inclusive for every article, and on the sample
articles it yields 100, 0 and 25 respectively. -/
theorem calculate_quality_score_spec :
    (∀ a : Article,
        calculate_quality_score a
          = round2 (min ((a.word_count : Rat) / 2000) 1 * 50
              + min ((a.comments : Rat) * 5) 50)
        ∧ 0 ≤ calculate_quality_score a
        ∧ calculate_quality_score a ≤ 100)
    ∧ calculate_quality_score (plainArticle 2000 10) = 100
    ∧ calculate_quality_score (plainArticle 0 0) = 0
    ∧ calculate_quality_score (plainArticle 1000 0) = 25 := by
  have hex1 : calculate_quality_score (plainArticle 2000 10) = 100 := by
    have h : calculate_quality_score (plainArticle 2000 10) = round2 100 := by
      unfold calculate_quality_score plainArticle
      norm_num
    rw [h]
    have h2 := round2_natCast 100
    norm_num at h2
    exact h2
  have hex2 : calculate_quality_score (plainArticle 0 0) = 0 := by
    have h : calculate_quality_score (plainArticle 0 0) = round2 0 := by
      unfold calculate_quality_score plainArticle
      norm_num
    rw [h]
    have h2 := round2_natCast 0
    norm_num at h2
    exact h2
  have hex3 : calculate_quality_score (plainArticle 1000 0) = 25 := by
    have h : calculate_quality_score (plainArticle 1000 0) = round2 25 := by
      unfold calculate_quality_score plainArticle
      norm_num
    rw [h]
    have h2 := round2_natCast 25
    norm_num at h2
    exact h2
  refine ⟨fun a => ?_, hex1, hex2, hex3⟩
  have hform : calculate_quality_score a
      = round2 (min ((a.word_count : Rat) / 2000) 1 * 50
          + min ((a.comments : Rat) * 5) 50) := by
    unfold calculate_quality_score
    rw [comment_score_eq]
  refine ⟨hform, ?_, ?_⟩
  · rw [hform]
    apply round2_nonneg
    have h1 := (length_score_bounds a.word_count).1
    have h2 : (0 : Rat) ≤ min ((a.comments : Rat) * 5) 50 := by
      have : (0 : Rat) ≤ (a.comments : Rat) * 5 := by positivity
      exact le_min this (by norm_num)
    linarith
  · rw [hform]
    apply round2_le_100
    have h1 := (length_score_bounds a.word_count).2
    have h2 : min ((a.comments : Rat) * 5) 50 ≤ 50 := min_le_right _ _
    linarith
